import Mathlib

/-!
Verification of the phonebook record store (`src/phonebook_app.py`).

The development shallowly embeds the program:

* a `Record` is the six-string-field dictionary built by `input_record_data`;
* the persisted file is modelled as `Option String` (`none` = the file does
  not exist, `some content` = the file holds `content`);
* `PhonebookDataHandler.save_records` writes `json.dump(records, file,
  indent=4, ensure_ascii=False)`; its output text is embedded character by
  character (`saveChars`);
* `PhonebookDataHandler.load_records` reads the file with `json.load`,
  returning `[]` when the file is missing or its content is unparseable;
  `json.loads` is embedded as `pyJsonLoads`, a recursive-descent parser
  producing a dynamic `Json` value exactly as Python does.  The embedding
  restricts JSON numbers to integers: inputs with fractional or exponent
  parts (floating point) are outside the model;
* `Phonebook.display_records` / `add_record` / `edit_record` /
  `search_records` are embedded over `List Record`, with Python's list
  slicing, negative-index assignment and `in`-substring semantics spelled
  out (`pySlice`, `pyListSet`, `containsSub`).
-/

/-- Dynamic JSON value, the result type of `json.load`.  Python objects
(dicts) are modelled as key/value lists in insertion order; numbers are
restricted to integers (floats are outside the model). -/
inductive Json where
  | null : Json
  | bool : Bool → Json
  | num : Int → Json
  | str : String → Json
  | arr : List Json → Json
  | obj : List (String × Json) → Json

/-- One contact entry: the six string fields produced by
`PhonebookApp.input_record_data`, in dictionary insertion order. -/
structure Record where
  last_name : String
  first_name : String
  middle_name : String
  organization : String
  work_phone : String
  personal_phone : String
deriving DecidableEq, Repr

/-- The JSON value a `Record` dictionary denotes (keys in insertion order). -/
def Record.toJson (r : Record) : Json :=
  Json.obj [("last_name", Json.str r.last_name),
            ("first_name", Json.str r.first_name),
            ("middle_name", Json.str r.middle_name),
            ("organization", Json.str r.organization),
            ("work_phone", Json.str r.work_phone),
            ("personal_phone", Json.str r.personal_phone)]

/-- The JSON value denoted by a collection of records. -/
def encodeRecords (rs : List Record) : Json :=
  Json.arr (rs.map Record.toJson)

/-! ## Serialization (`json.dump(records, file, indent=4, ensure_ascii=False)`)

With `ensure_ascii=False`, Python escapes only `"`, `\` and control
characters below `0x20` (the latter via the short escapes `\b \t \n \f \r`
or `\u00xx` with lowercase hex); all other characters, including non-ASCII,
are written literally. -/

/-- Lowercase hex digit, as produced by Python's `'\u%04x'` formatting. -/
def hexDigit (n : Nat) : Char :=
  if n < 10 then Char.ofNat ('0'.toNat + n) else Char.ofNat ('a'.toNat + (n - 10))

/-- How `json.dumps(..., ensure_ascii=False)` renders one character inside a
string literal. -/
def escapeChar (c : Char) : List Char :=
  if c = '"' then ['\\', '"']
  else if c = '\\' then ['\\', '\\']
  else if c = '\n' then ['\\', 'n']
  else if c = '\t' then ['\\', 't']
  else if c = '\r' then ['\\', 'r']
  else if c = '\x08' then ['\\', 'b']
  else if c = '\x0c' then ['\\', 'f']
  else if c.toNat < 32 then ['\\', 'u', '0', '0', hexDigit (c.toNat / 16), hexDigit (c.toNat % 16)]
  else [c]

def escapeString (l : List Char) : List Char :=
  match l with
  | [] => []
  | c :: rest => escapeChar c ++ escapeString rest

/-- A JSON string literal: `"` + escaped body + `"`. -/
def qstr (s : String) : List Char :=
  '"' :: (escapeString s.toList ++ ['"'])

/-- `n` spaces of indentation. -/
def sp (n : Nat) : List Char := List.replicate n ' '

/-- One `"key": value` pair (separator `': '`, as with both the default and
the `indent=4` configuration of `json.dump`). -/
def fieldKV (k v : String) : List Char :=
  qstr k ++ ':' :: ' ' :: qstr v

/-- The text `json.dump(..., indent=4, ensure_ascii=False)` produces for one
record dictionary nested at depth 1 (fields indented by 8, closing brace by
4 spaces). -/
def dumpRecordInd (r : Record) : List Char :=
  '\x7b' :: '\n' :: sp 8 ++ fieldKV "last_name" r.last_name ++
  ',' :: '\n' :: sp 8 ++ fieldKV "first_name" r.first_name ++
  ',' :: '\n' :: sp 8 ++ fieldKV "middle_name" r.middle_name ++
  ',' :: '\n' :: sp 8 ++ fieldKV "organization" r.organization ++
  ',' :: '\n' :: sp 8 ++ fieldKV "work_phone" r.work_phone ++
  ',' :: '\n' :: sp 8 ++ fieldKV "personal_phone" r.personal_phone ++
  '\n' :: sp 4 ++ ['\x7d']

/-- Remaining items of the top-level array (each preceded by `,\n` and 4
spaces) followed by the closing `\n]`. -/
def dumpRecsTail (rs : List Record) : List Char :=
  match rs with
  | [] => '\n' :: [']']
  | r :: rest => ',' :: '\n' :: sp 4 ++ dumpRecordInd r ++ dumpRecsTail rest

/-- Full file text written by `PhonebookDataHandler.save_records`:
`json.dump(records, file, indent=4, ensure_ascii=False)`. -/
def saveChars (rs : List Record) : List Char :=
  match rs with
  | [] => ['[', ']']
  | r :: rest => '[' :: '\n' :: sp 4 ++ dumpRecordInd r ++ dumpRecsTail rest

/-- `PhonebookDataHandler.save_records`, returning the new file content. -/
def save_records (rs : List Record) : String := ⟨saveChars rs⟩

/-! ## Parsing (`json.load` / `json.loads`) -/

/-- JSON whitespace skipped between tokens (`' '`, `'\t'`, `'\n'`, `'\r'`). -/
def skipWs (l : List Char) : List Char :=
  match l with
  | [] => []
  | c :: rest => if c = ' ' ∨ c = '\t' ∨ c = '\n' ∨ c = '\r' then skipWs rest else c :: rest

/-- Value of one hex digit (either case), as accepted after `\u`. -/
def hexVal (c : Char) : Option Nat :=
  if '0' ≤ c ∧ c ≤ '9' then some (c.toNat - '0'.toNat)
  else if 'a' ≤ c ∧ c ≤ 'f' then some (c.toNat - 'a'.toNat + 10)
  else if 'A' ≤ c ∧ c ≤ 'F' then some (c.toNat - 'A'.toNat + 10)
  else none

/-- The character denoted by a two-character escape. -/
def unescape (e : Char) : Option Char :=
  if e = '"' then some '"'
  else if e = '\\' then some '\\'
  else if e = '/' then some '/'
  else if e = 'b' then some '\x08'
  else if e = 'f' then some '\x0c'
  else if e = 'n' then some '\n'
  else if e = 'r' then some '\r'
  else if e = 't' then some '\t'
  else none

/-- Body of a JSON string literal, after the opening quote: returns the
decoded characters and the input following the closing quote.  As in
Python's strict mode, a raw control character below `0x20` is rejected. -/
def parseStringBody (l : List Char) : Option (List Char × List Char) :=
  match l with
  | [] => none
  | c :: rest =>
    if c = '"' then some ([], rest)
    else if c = '\\' then
      match rest with
      | [] => none
      | e :: rest2 =>
        if e = 'u' then
          match rest2 with
          | h1 :: h2 :: h3 :: h4 :: rest3 =>
            match hexVal h1, hexVal h2, hexVal h3, hexVal h4 with
            | some a, some b, some c2, some d =>
              (parseStringBody rest3).map
                (fun p => (Char.ofNat (((a * 16 + b) * 16 + c2) * 16 + d) :: p.1, p.2))
            | _, _, _, _ => none
          | _ => none
        else
          match unescape e with
          | some u => (parseStringBody rest2).map (fun p => (u :: p.1, p.2))
          | none => none
    else if c.toNat < 32 then none
    else (parseStringBody rest).map (fun p => (c :: p.1, p.2))

/-- Digits consumed greedily. -/
def takeDigits (l : List Char) : List Char × List Char :=
  match l with
  | [] => ([], [])
  | c :: rest =>
    if c.isDigit then
      let p := takeDigits rest
      (c :: p.1, p.2)
    else ([], c :: rest)

def digitsVal (acc : Nat) (l : List Char) : Nat :=
  match l with
  | [] => acc
  | c :: rest => digitsVal (acc * 10 + (c.toNat - '0'.toNat)) rest

/-- Unsigned integer part of a JSON number (`0` or a nonzero digit followed
by digits, the maximal-munch behavior of Python's `NUMBER_RE`). -/
def parseIntPart (l : List Char) : Option (Nat × List Char) :=
  match l with
  | [] => none
  | c :: rest =>
    if c = '0' then some (0, rest)
    else if c.isDigit then
      let p := takeDigits rest
      some (digitsVal (c.toNat - '0'.toNat) p.1, p.2)
    else none

/-- A JSON number.  Fractional and exponent parts (floats) are outside the
model and make the parse fail. -/
def parseNum (l : List Char) : Option (Int × List Char) :=
  match l with
  | '-' :: rest =>
    match parseIntPart rest with
    | some (n, r) =>
      match r with
      | c :: _ => if c = '.' ∨ c = 'e' ∨ c = 'E' then none else some (-(n : Int), r)
      | [] => some (-(n : Int), [])
    | none => none
  | _ =>
    match parseIntPart l with
    | some (n, r) =>
      match r with
      | c :: _ => if c = '.' ∨ c = 'e' ∨ c = 'E' then none else some ((n : Int), r)
      | [] => some ((n : Int), [])
    | none => none

/-- Does the list start with the character `c`? -/
def headIs (c : Char) (l : List Char) : Bool :=
  match l with
  | [] => false
  | x :: _ => x == c

/-- Python-dict insertion: an existing key keeps its position but takes the
new value; a new key is appended. -/
def dictInsert (m : List (String × Json)) (k : String) (v : Json) : List (String × Json) :=
  if m.any (fun p => p.1 == k) then m.map (fun p => if p.1 == k then (k, v) else p)
  else m ++ [(k, v)]

/-- Build a dict from the parsed key/value pairs (duplicate keys: last value
wins, first position kept, as in Python). -/
def buildDict (ps : List (String × Json)) : List (String × Json) :=
  ps.foldl (fun m p => dictInsert m p.1 p.2) []

mutual

/-- JSON value parser with a recursion budget `fuel` bounding the nesting
depth and the item counts of arrays/objects.  Mirrors `json.loads`. -/
def parseVal : Nat → List Char → Option (Json × List Char)
  | 0, _ => none
  | fuel + 1, input =>
    match skipWs input with
    | [] => none
    | c :: rest =>
      if c = '"' then
        (parseStringBody rest).map (fun p => (Json.str ⟨p.1⟩, p.2))
      else if c = '\x7b' then
        if headIs '\x7d' (skipWs rest) then some (Json.obj [], (skipWs rest).tail)
        else (parseObjRest fuel (skipWs rest)).map (fun p => (Json.obj (buildDict p.1), p.2))
      else if c = '[' then
        if headIs ']' (skipWs rest) then some (Json.arr [], (skipWs rest).tail)
        else (parseArrRest fuel (skipWs rest)).map (fun p => (Json.arr p.1, p.2))
      else if c = 't' then
        match rest with
        | 'r' :: 'u' :: 'e' :: r => some (Json.bool true, r)
        | _ => none
      else if c = 'f' then
        match rest with
        | 'a' :: 'l' :: 's' :: 'e' :: r => some (Json.bool false, r)
        | _ => none
      else if c = 'n' then
        match rest with
        | 'u' :: 'l' :: 'l' :: r => some (Json.null, r)
        | _ => none
      else if c = '-' ∨ c.isDigit then
        (parseNum (c :: rest)).map (fun p => (Json.num p.1, p.2))
      else none

/-- Items of a non-empty array: one value, then either `,` and more items or
the closing `]`. -/
def parseArrRest : Nat → List Char → Option (List Json × List Char)
  | 0, _ => none
  | fuel + 1, input =>
    match parseVal fuel input with
    | none => none
    | some (v, r1) =>
      match skipWs r1 with
      | ',' :: r2 => (parseArrRest fuel r2).map (fun p => (v :: p.1, p.2))
      | ']' :: r2 => some ([v], r2)
      | _ => none

/-- Members of a non-empty object: one `"key": value` pair, then either `,`
and more members or the closing brace. -/
def parseObjRest : Nat → List Char → Option (List (String × Json) × List Char)
  | 0, _ => none
  | fuel + 1, input =>
    match skipWs input with
    | '"' :: kr =>
      match parseStringBody kr with
      | none => none
      | some (k, r1) =>
        match skipWs r1 with
        | ':' :: r2 =>
          match parseVal fuel r2 with
          | none => none
          | some (v, r3) =>
            match skipWs r3 with
            | ',' :: r4 => (parseObjRest fuel r4).map (fun p => ((⟨k⟩, v) :: p.1, p.2))
            | '\x7d' :: r4 => some ([(⟨k⟩, v)], r4)
            | _ => none
        | _ => none
    | _ => none

end

/-- `json.loads`: parse one value and require only whitespace after it. -/
def pyJsonLoads (s : String) : Option Json :=
  let cs := s.toList
  match parseVal (2 * cs.length + 2) cs with
  | some (j, rest) => if skipWs rest = [] then some j else none
  | none => none

/-- `PhonebookDataHandler.load_records`: `[]` when the file does not exist,
`[]` when `json.load` raises `JSONDecodeError`, otherwise whatever value the
file parses to. -/
def load_records (file : Option String) : Json :=
  match file with
  | none => Json.arr []
  | some content =>
    match pyJsonLoads content with
    | none => Json.arr []
    | some j => j

/-! ## The record store (`Phonebook`) -/

/-- Program state relevant to the store: the in-memory `self.records` and
the content of the storage file (`none` = file absent). -/
structure PhonebookState where
  records : List Record
  file : Option String

/-- Result of `Phonebook.display_records`: either the "directory is empty"
message, or the printed page as `(1-based display index, record)` lines. -/
inductive DisplayResult where
  | emptyBook : DisplayResult
  | page : List (Int × Record) → DisplayResult
deriving DecidableEq, Repr

/-- Python list slice `xs[a:b]` (step 1) with full negative-index and
clamping semantics. -/
def pySlice {α : Type} (xs : List α) (a b : Int) : List α :=
  let n : Int := xs.length
  let a' := (if a < 0 then max (n + a) 0 else min a n).toNat
  let b' := (if b < 0 then max (n + b) 0 else min b n).toNat
  (xs.take b').drop a'

/-- `enumerate(l, start=i)`. -/
def enumFrom (i : Int) : List Record → List (Int × Record)
  | [] => []
  | r :: rs => (i, r) :: enumFrom (i + 1) rs

/-- `Phonebook.display_records(page_num, records_per_page)`: prints the
empty-book message when `self.records` is falsy, otherwise prints the slice
`records[start_idx:end_idx]` enumerated from `start_idx + 1`. -/
def display_records (records : List Record) (page_num records_per_page : Int) : DisplayResult :=
  let start_idx := (page_num - 1) * records_per_page
  let end_idx := start_idx + records_per_page
  if records = [] then DisplayResult.emptyBook
  else DisplayResult.page (enumFrom (start_idx + 1) (pySlice records start_idx end_idx))

/-- `Phonebook.add_record(record)`: appends, then write-through saves.  The
Python method has no `return` statement, so its return value is `None`,
modelled as the second component being `none : Option Int`. -/
def add_record (st : PhonebookState) (record : Record) : PhonebookState × Option Int :=
  let rs := st.records ++ [record]
  ({ records := rs, file := some (save_records rs) }, none)

/-- Python sequence index normalization: a negative index counts from the
end of a sequence of length `n`. -/
def pyNormIdx (i : Int) (n : Nat) : Int := if i < 0 then i + n else i

/-- Python list item assignment `xs[i] = v`: a negative index counts from
the end; an index out of `[-n, n)` raises `IndexError` (`none`). -/
def pyListSet (xs : List Record) (i : Int) (v : Record) : Option (List Record) :=
  if 0 ≤ pyNormIdx i xs.length ∧ pyNormIdx i xs.length < (xs.length : Int) then
    some (xs.set (pyNormIdx i xs.length).toNat v)
  else none

/-- `Phonebook.edit_record(record_idx, new_record)`: assigns
`self.records[record_idx] = new_record` then write-through saves.  `none`
models the uncaught `IndexError` (the state is left unchanged). -/
def edit_record (st : PhonebookState) (record_idx : Int) (new_record : Record) :
    Option PhonebookState :=
  match pyListSet st.records record_idx new_record with
  | none => none
  | some rs => some { records := rs, file := some (save_records rs) }

/-! ## Search -/

/-- `b.startsWith? a` for character lists (needle, haystack). -/
def listStartsWith : List Char → List Char → Bool
  | [], _ => true
  | _ :: _, [] => false
  | a :: as, b :: bs => a == b && listStartsWith as bs

/-- Python's substring test `needle in hay`. -/
def containsSub (needle hay : List Char) : Bool :=
  match hay with
  | [] => listStartsWith needle []
  | _ :: t => listStartsWith needle hay || containsSub needle t

/-- `str.lower()` on the ASCII range (non-ASCII case mappings are outside
the model; all characters the claims exercise are ASCII). -/
def pyLowerChar (c : Char) : Char :=
  if 'A' ≤ c ∧ c ≤ 'Z' then Char.ofNat (c.toNat + 32) else c

def pyLower (l : List Char) : List Char := l.map pyLowerChar

/-- The text `json.dumps(record, ensure_ascii=False)` produces with the
default separators `', '` and `': '`. -/
def dumpRecordC (r : Record) : List Char :=
  '\x7b' :: fieldKV "last_name" r.last_name ++
  ',' :: ' ' :: fieldKV "first_name" r.first_name ++
  ',' :: ' ' :: fieldKV "middle_name" r.middle_name ++
  ',' :: ' ' :: fieldKV "organization" r.organization ++
  ',' :: ' ' :: fieldKV "work_phone" r.work_phone ++
  ',' :: ' ' :: fieldKV "personal_phone" r.personal_phone ++
  ['\x7d']

/-- The lowered full-text rendering a record is matched against:
`json.dumps(record, ensure_ascii=False).lower()`. -/
def searchText (r : Record) : List Char := pyLower (dumpRecordC r)

/-- `Phonebook.search_records(search_term)`: the accumulation loop
`for record in self.records: if search_term in dumps(record).lower(): ...`.
Non-mutating: it reads only `self.records` and touches no file. -/
def search_records (records : List Record) (search_term : String) : List Record :=
  records.foldl
    (fun found record =>
      if containsSub search_term.toList (searchText record) then found ++ [record] else found)
    []
/-! ## Helper lemmas about the operations -/

theorem enumFrom_map_snd (i : Int) (l : List Record) : (enumFrom i l).map Prod.snd = l := by
  induction l generalizing i with
  | nil => rfl
  | cons r rs ih => simp [enumFrom, ih]

theorem foldl_append_filter (p : Record → Bool) (l : List Record) (acc : List Record) :
    l.foldl (fun found r => if p r then found ++ [r] else found) acc = acc ++ l.filter p := by
  induction l generalizing acc with
  | nil => simp
  | cons r rs ih =>
    by_cases h : p r <;> simp [List.filter_cons, h, ih, List.append_assoc]

theorem listStartsWith_iff (n h : List Char) :
    listStartsWith n h = true ↔ ∃ t, h = n ++ t := by
  induction n generalizing h with
  | nil => simp [listStartsWith]
  | cons a as ih =>
    cases h with
    | nil => simp [listStartsWith]
    | cons b bs =>
      simp only [listStartsWith, Bool.and_eq_true, beq_iff_eq, ih]
      constructor
      · rintro ⟨rfl, t, rfl⟩; exact ⟨t, rfl⟩
      · rintro ⟨t, ht⟩
        injection ht with h1 h2
        exact ⟨h1.symm, t, h2⟩

theorem containsSub_iff (n h : List Char) :
    containsSub n h = true ↔ ∃ pre post, h = pre ++ n ++ post := by
  induction h with
  | nil =>
    simp only [containsSub, listStartsWith_iff]
    constructor
    · rintro ⟨t, ht⟩; exact ⟨[], t, by simp [← ht]⟩
    · rintro ⟨pre, post, hh⟩
      rcases List.append_eq_nil.mp (List.append_eq_nil.mp hh.symm).1 with ⟨rfl, rfl⟩
      exact ⟨post, hh⟩
  | cons c t ih =>
    simp only [containsSub, Bool.or_eq_true, listStartsWith_iff, ih]
    constructor
    · rintro (⟨u, hu⟩ | ⟨pre, post, rfl⟩)
      · exact ⟨[], u, by simp [hu]⟩
      · exact ⟨c :: pre, post, by simp⟩
    · rintro ⟨pre, post, hh⟩
      cases pre with
      | nil => exact Or.inl ⟨post, by simpa using hh⟩
      | cons x xs =>
        injection hh with h1 h2
        exact Or.inr ⟨xs, post, h2⟩

theorem containsSub_nil_left (h : List Char) : containsSub [] h = true := by
  cases h <;> simp [containsSub, listStartsWith]

/-- Sample records used by concrete witnesses and counterexamples. -/
def recA : Record := ⟨"Smith", "Anna", "Maria", "Acme", "111", "222"⟩

def recB : Record := ⟨"Jones", "Bob", "Lee", "Initech", "333", "444"⟩

def recC : Record := ⟨"Brown", "Cara", "Sue", "Globex", "555", "666"⟩

/-- C4: the claim is false — `search_records` lowercases only the rendering,
not the search term.  With term `"A"` the record `recA` has `"a"` in its
lowered rendering (so the claim requires a match), yet the code returns no
records, because the un-lowered `"A"` occurs nowhere in the lowered text. -/
theorem C4_search_counterexample :
    search_records [recA] "A" = []
    ∧ containsSub (pyLower "A".toList) (searchText recA) = true
    ∧ [recA] ≠ ([] : List Record) := by
  refine ⟨rfl, by decide, by simp⟩

/-- C4 (amended): `search_records t` returns exactly the order-preserving
subsequence of records whose rendering `json.dumps(record).lower()` contains
the *unmodified* term `t` as a substring (the caller, not the store, is the
one that lowercases the operator's input); the empty term matches every
record, and the result is a sublist of the collection. -/
theorem C4_search_amended (C : List Record) (t : String) :
    search_records C t = C.filter (fun r => containsSub t.toList (searchText r))
    ∧ search_records C "" = C
    ∧ (search_records C t).Sublist C := by
  refine ⟨foldl_append_filter _ C [], ?_, ?_⟩
  · rw [search_records, foldl_append_filter]
    simp [containsSub_nil_left]
  · rw [search_records, foldl_append_filter _ C []]
    simp [List.filter_sublist C]

theorem pyListSet_none_iff (xs : List Record) (i : Int) (v : Record) :
    pyListSet xs i v = none ↔ ((xs.length : Int) ≤ i ∨ i < -(xs.length : Int)) := by
  by_cases hi : i < 0 <;> rw [pyListSet, pyNormIdx] <;> simp only [hi, if_true, if_false] <;>
    split <;> simp <;> omega

theorem pyListSet_nonneg (xs : List Record) (i : Int) (v : Record)
    (h0 : 0 ≤ i) (h1 : i < (xs.length : Int)) :
    pyListSet xs i v = some (xs.set i.toNat v) := by
  rw [pyListSet, pyNormIdx, if_neg (show ¬ i < 0 by omega)]
  rw [if_pos ⟨h0, h1⟩]

theorem pyListSet_neg (xs : List Record) (i : Int) (v : Record)
    (h0 : -(xs.length : Int) ≤ i) (h1 : i < 0) :
    pyListSet xs i v = some (xs.set (i + xs.length).toNat v) := by
  rw [pyListSet, pyNormIdx, if_pos h1]
  rw [if_pos (by constructor <;> omega)]

/-- C6: the claim is false in one respect — `Phonebook.add_record` has no
`return` statement, so it returns `None`, not the new 1-based position
(which would be `1` when adding to an empty collection). -/
theorem C6_add_counterexample :
    (add_record ⟨[], none⟩ recA).2 = none ∧ (add_record ⟨[], none⟩ recA).2 ≠ some 1 := by
  exact ⟨rfl, by simp [add_record]⟩

/-- C6 (amended): `add_record` appends the record at the end (the collection
becomes the old sequence followed by `r`, size `n + 1`), persists the full
collection before returning, and never fails; but it returns `None` (no
1-based position). -/
theorem C6_add_amended (st : PhonebookState) (r : Record) :
    (add_record st r).1.records = st.records ++ [r]
    ∧ (add_record st r).1.records.length = st.records.length + 1
    ∧ (add_record st r).1.file = some (save_records (st.records ++ [r]))
    ∧ (add_record st r).2 = none := by
  refine ⟨rfl, by simp [add_record], rfl, rfl⟩

/-- C5: the claim is false — with one record, the index `-1` violates the
precondition `0 <= index < size`, yet `edit_record` signals nothing and
silently replaces the last record (Python's negative indexing). -/
theorem C5_edit_counterexample :
    (edit_record ⟨[recA], none⟩ (-1) recB).isSome = true
    ∧ (edit_record ⟨[recA], none⟩ (-1) recB).map PhonebookState.records = some [recB] := by
  constructor <;> rfl

/-- C5 (amended): `edit_record` signals an out-of-bounds failure (uncaught
`IndexError`, modifying nothing) only for indices below `-n` or at/above
`n`; indices in `[-n, -1]` are silently accepted via Python's
negative-index semantics. -/
theorem C5_edit_amended (st : PhonebookState) (i : Int) (r : Record)
    (h : i < -(st.records.length : Int) ∨ (st.records.length : Int) ≤ i) :
    edit_record st i r = none := by
  rw [edit_record, (pyListSet_none_iff st.records i r).mpr (by omega)]

/-- C5 witness: editing index 5 of a one-record collection fails. -/
theorem C5_edit_amended_witness : edit_record ⟨[recA], none⟩ 5 recB = none :=
  C5_edit_amended ⟨[recA], none⟩ 5 recB (by norm_num)

/-- C7: editing at a valid index `0 ≤ i < n` replaces exactly position `i`:
the length is unchanged, position `i` holds the new record, and every other
position holds its original record (hence the original order). -/
theorem C7_edit_frame (st : PhonebookState) (i : Int) (r : Record)
    (h0 : 0 ≤ i) (h1 : i < st.records.length) :
    edit_record st i r
      = some { records := st.records.set i.toNat r,
               file := some (save_records (st.records.set i.toNat r)) }
    ∧ (st.records.set i.toNat r).length = st.records.length
    ∧ (st.records.set i.toNat r)[i.toNat]? = some r
    ∧ ∀ j : Nat, j ≠ i.toNat → (st.records.set i.toNat r)[j]? = st.records[j]? := by
  refine ⟨?_, List.length_set .., ?_, ?_⟩
  · rw [edit_record, pyListSet_nonneg st.records i r h0 h1]
  · have hi : i.toNat < st.records.length := by omega
    simp [List.getElem?_set_self', List.getElem?_eq_getElem hi]
  · intro j hj
    exact List.getElem?_set_ne (fun hh => hj hh.symm) ..

/-- C7 witness: editing index 1 of `[recA, recB, recC]`. -/
theorem C7_edit_frame_witness :
    edit_record ⟨[recA, recB, recC], none⟩ 1 recA
      = some { records := [recA, recA, recC], file := some (save_records [recA, recA, recC]) }
    ∧ ([recA, recB, recC].set 1 recA)[1]? = some recA := by
  have h := C7_edit_frame ⟨[recA, recB, recC], none⟩ 1 recA (by norm_num) (by norm_num)
  exact ⟨h.1, h.2.2.1⟩

/-- C9: for a nonempty collection, `edit_record` raises `IndexError` exactly
when `i ≥ n` or `i < -n`; a negative in-range index `-n ≤ i ≤ -1` silently
replaces the record at position `n + i` and persists the result. -/
theorem C9_edit_negative_indices (st : PhonebookState) (i : Int) (r : Record)
    (_hn : 1 ≤ st.records.length) :
    (edit_record st i r = none ↔ ((st.records.length : Int) ≤ i ∨ i < -(st.records.length : Int)))
    ∧ (-(st.records.length : Int) ≤ i → i ≤ -1 →
        edit_record st i r
          = some { records := st.records.set (i + st.records.length).toNat r,
                   file := some (save_records (st.records.set (i + st.records.length).toNat r)) }) := by
  constructor
  · constructor
    · intro h
      by_contra hcon
      push_neg at hcon
      obtain ⟨hlt, hge⟩ := hcon
      by_cases hneg : i < 0
      · rw [edit_record, pyListSet_neg st.records i r (by omega) hneg] at h
        exact Option.noConfusion h
      · rw [edit_record, pyListSet_nonneg st.records i r (by omega) (by omega)] at h
        exact Option.noConfusion h
    · intro h
      rw [edit_record, (pyListSet_none_iff st.records i r).mpr h]
  · intro hlo hhi
    rw [edit_record, pyListSet_neg st.records i r hlo (by omega)]

/-- C9 witness: on a two-record collection, index `-2` silently replaces the
first record (and persists), while index `2` raises. -/
theorem C9_edit_negative_indices_witness :
    edit_record ⟨[recA, recB], none⟩ (-2) recC
      = some { records := [recA, recB].set 0 recC,
               file := some (save_records ([recA, recB].set 0 recC)) }
    ∧ edit_record ⟨[recA, recB], none⟩ 2 recC = none := by
  constructor
  · exact (C9_edit_negative_indices ⟨[recA, recB], none⟩ (-2) recC (by norm_num)).2
      (by norm_num) (by norm_num)
  · exact (C9_edit_negative_indices ⟨[recA, recB], none⟩ 2 recC (by norm_num)).1.mpr
      (by norm_num)

theorem pySlice_nonneg {α : Type} (xs : List α) (a p : Int) (ha : 0 ≤ a) (hp : 0 ≤ p) :
    pySlice xs a (a + p) = (xs.drop a.toNat).take p.toNat := by
  rw [pySlice]
  simp only [if_neg (show ¬ a < 0 by omega), if_neg (show ¬ a + p < 0 by omega)]
  rw [List.drop_take]
  by_cases hle : a ≤ (xs.length : Int)
  · have h1 : (min a (xs.length : Int)).toNat = a.toNat := by omega
    rw [h1]
    have h2 : ((min (a + p) (xs.length : Int)).toNat - a.toNat) = min p.toNat (xs.length - a.toNat) := by
      omega
    rw [h2]
    rcases Nat.le_total p.toNat (xs.length - a.toNat) with hc | hc
    · rw [min_eq_left hc]
    · rw [min_eq_right hc]
      rw [List.take_eq_take]
      simp
      omega
  · have h1 : (min a (xs.length : Int)).toNat = xs.length := by omega
    have h2 : (min (a + p) (xs.length : Int)).toNat = xs.length := by omega
    rw [h1, h2]
    rw [List.drop_eq_nil_of_le (by simp), List.drop_eq_nil_of_le (by omega)]
    simp

/-- C2: for page number `k ≥ 1` and page size `p ≥ 1`, `display_records`
prints the empty-book message exactly when the collection is empty;
otherwise it prints the slice `C[(k-1)p : kp]` (enumerated from
`(k-1)p + 1`), which holds `min(p, max(0, n - (k-1)p))` records; an
out-of-range page on a nonempty collection prints an empty page, which is
distinct from the empty-book signal. -/
theorem C2_pagination (C : List Record) (k p : Int) (hk : 1 ≤ k) (hp : 1 ≤ p) :
    (C = [] → display_records C k p = DisplayResult.emptyBook)
    ∧ (C ≠ [] →
        display_records C k p
          = DisplayResult.page
              (enumFrom ((k - 1) * p + 1) ((C.drop ((k - 1) * p).toNat).take p.toNat))
        ∧ (enumFrom ((k - 1) * p + 1) ((C.drop ((k - 1) * p).toNat).take p.toNat)).map Prod.snd
            = (C.drop ((k - 1) * p).toNat).take p.toNat
        ∧ (((C.drop ((k - 1) * p).toNat).take p.toNat).length : Int)
            = min p (max 0 ((C.length : Int) - (k - 1) * p)))
    ∧ (C ≠ [] → (C.length : Int) ≤ (k - 1) * p →
        display_records C k p = DisplayResult.page []
        ∧ DisplayResult.page [] ≠ DisplayResult.emptyBook) := by
  have hs : (0 : Int) ≤ (k - 1) * p := mul_nonneg (by omega) (by omega)
  have hslice : pySlice C ((k - 1) * p) ((k - 1) * p + p)
      = (C.drop ((k - 1) * p).toNat).take p.toNat :=
    pySlice_nonneg C ((k - 1) * p) p hs (by omega)
  refine ⟨fun hC => by rw [display_records, if_pos hC], fun hC => ⟨?_, enumFrom_map_snd .., ?_⟩,
    fun hC hbig => ⟨?_, by simp⟩⟩
  · rw [display_records, if_neg hC]
    rw [hslice]
  · rw [List.length_take, List.length_drop]
    omega
  · rw [display_records, if_neg hC, hslice]
    rw [List.drop_eq_nil_of_le (by omega)]
    simp [enumFrom]

/-- C2 witness, the spec's scenario: seven records, page size 5 — page 1
shows records 1–5, page 2 shows records 6–7, page 3 shows an empty page
(not the empty signal), and an empty collection signals empty. -/
theorem C2_pagination_witness :
    display_records [recA, recB, recC, recA, recB, recC, recA] 2 5
      = DisplayResult.page [(6, recC), (7, recA)]
    ∧ display_records [recA, recB, recC, recA, recB, recC, recA] 3 5 = DisplayResult.page []
    ∧ display_records [] 1 5 = DisplayResult.emptyBook := by
  refine ⟨?_, ?_, ?_⟩
  · have h := ((C2_pagination [recA, recB, recC, recA, recB, recC, recA] 2 5
      (by norm_num) (by norm_num)).2.1 (by simp)).1
    rw [h]
    rfl
  · exact ((C2_pagination [recA, recB, recC, recA, recB, recC, recA] 3 5
      (by norm_num) (by norm_num)).2.2 (by simp) (by norm_num)).1
  · exact (C2_pagination [] 1 5 (by norm_num) (by norm_num)).1 rfl

/-! ## Round trip: parsing back the saved file -/

theorem string_mk_toList (s : String) : String.mk s.toList = s := rfl

theorem skipWs_nil : skipWs [] = [] := rfl

theorem skipWs_cons_not (c : Char) (l : List Char)
    (h : ¬(c = ' ' ∨ c = '\t' ∨ c = '\n' ∨ c = '\r')) : skipWs (c :: l) = c :: l := by
  rw [skipWs, if_neg h]

theorem skipWs_sp (n : Nat) (l : List Char) : skipWs (sp n ++ l) = skipWs l := by
  induction n with
  | zero => rfl
  | succ m ih =>
    rw [sp, List.replicate_succ, List.cons_append]
    rw [show skipWs (' ' :: (List.replicate m ' ' ++ l)) = skipWs (List.replicate m ' ' ++ l) from rfl]
    exact ih

theorem skipWs_nl_sp (n : Nat) (l : List Char) : skipWs ('\n' :: (sp n ++ l)) = skipWs l := by
  rw [show skipWs ('\n' :: (sp n ++ l)) = skipWs (sp n ++ l) from rfl, skipWs_sp]

theorem hexVal_hexDigit : ∀ n, n < 16 → hexVal (hexDigit n) = some n := by decide

theorem parseStringBody_quote (X : List Char) : parseStringBody ('"' :: X) = some ([], X) := by
  rw [parseStringBody.eq_def]
  simp

theorem parseStringBody_esc (e u : Char) (X : List Char) (he : unescape e = some u)
    (hu : e ≠ 'u') :
    parseStringBody ('\\' :: e :: X) = (parseStringBody X).map (fun p => (u :: p.1, p.2)) := by
  rw [parseStringBody.eq_def]
  simp only [if_neg (show ¬ '\\' = '"' by decide), if_pos (show '\\' = '\\' from rfl),
    if_neg hu, he]
  simp

theorem parseStringBody_u (h1 h2 h3 h4 : Char) (a b c2 d : Nat) (X : List Char)
    (e1 : hexVal h1 = some a) (e2 : hexVal h2 = some b) (e3 : hexVal h3 = some c2)
    (e4 : hexVal h4 = some d) :
    parseStringBody ('\\' :: 'u' :: h1 :: h2 :: h3 :: h4 :: X)
      = (parseStringBody X).map
          (fun p => (Char.ofNat (((a * 16 + b) * 16 + c2) * 16 + d) :: p.1, p.2)) := by
  rw [parseStringBody.eq_def]
  simp only [if_neg (show ¬ '\\' = '"' by decide), if_pos (show '\\' = '\\' from rfl),
    if_pos (show 'u' = 'u' from rfl), e1, e2, e3, e4]
  simp

theorem parseStringBody_plain (c : Char) (X : List Char) (h1 : ¬ c = '"') (h2 : ¬ c = '\\')
    (h8 : ¬ c.toNat < 32) :
    parseStringBody (c :: X) = (parseStringBody X).map (fun p => (c :: p.1, p.2)) := by
  rw [parseStringBody.eq_def]
  simp only [if_neg h1, if_neg h2, if_neg h8]

theorem parseStringBody_escape (l : List Char) (rest : List Char) :
    parseStringBody (escapeString l ++ '"' :: rest) = some (l, rest) := by
  induction l with
  | nil =>
    rw [escapeString, List.nil_append, parseStringBody_quote]
  | cons c t ih =>
    rw [escapeString, escapeChar, List.append_assoc]
    split_ifs with h1 h2 h3 h4 h5 h6 h7 h8
    · subst h1
      simp only [List.cons_append, List.nil_append]
      rw [parseStringBody_esc '"' '"' _ rfl (by decide), ih]
      rfl
    · subst h2
      simp only [List.cons_append, List.nil_append]
      rw [parseStringBody_esc '\\' '\\' _ rfl (by decide), ih]
      rfl
    · subst h3
      simp only [List.cons_append, List.nil_append]
      rw [parseStringBody_esc 'n' '\n' _ rfl (by decide), ih]
      rfl
    · subst h4
      simp only [List.cons_append, List.nil_append]
      rw [parseStringBody_esc 't' '\t' _ rfl (by decide), ih]
      rfl
    · subst h5
      simp only [List.cons_append, List.nil_append]
      rw [parseStringBody_esc 'r' '\r' _ rfl (by decide), ih]
      rfl
    · subst h6
      simp only [List.cons_append, List.nil_append]
      rw [parseStringBody_esc 'b' '\x08' _ rfl (by decide), ih]
      rfl
    · subst h7
      simp only [List.cons_append, List.nil_append]
      rw [parseStringBody_esc 'f' '\x0c' _ rfl (by decide), ih]
      rfl
    · -- control character written as \u00xy
      simp only [List.cons_append, List.nil_append]
      rw [parseStringBody_u '0' '0' (hexDigit (c.toNat / 16)) (hexDigit (c.toNat % 16))
        0 0 (c.toNat / 16) (c.toNat % 16) _ rfl rfl
        (hexVal_hexDigit _ (by omega)) (hexVal_hexDigit _ (by omega)), ih]
      have hc : ((0 * 16 + 0) * 16 + c.toNat / 16) * 16 + c.toNat % 16 = c.toNat := by omega
      rw [hc, Char.ofNat_toNat]
      rfl
    · -- ordinary character, written literally
      simp only [List.cons_append, List.nil_append]
      rw [parseStringBody_plain c _ h1 h2 h8, ih]
      rfl

theorem parseVal_qstr (fuel : Nat) (s : String) (rest input : List Char)
    (h : skipWs input = qstr s ++ rest) :
    parseVal (fuel + 1) input = some (Json.str s, rest) := by
  rw [parseVal]
  rw [h, qstr, List.cons_append, List.append_assoc]
  simp only [if_pos (show '"' = '"' from rfl)]
  rw [show ['"'] ++ rest = '"' :: rest from rfl, parseStringBody_escape]
  simp [string_mk_toList]

theorem parseObjRest_field_cons (fuel : Nat) (k v : String) (tail input r4 : List Char)
    (h : skipWs input = fieldKV k v ++ tail) (h2 : skipWs tail = ',' :: r4) :
    parseObjRest (fuel + 2) input
      = (parseObjRest (fuel + 1) r4).map (fun p => ((k, Json.str v) :: p.1, p.2)) := by
  rw [parseObjRest, h]
  simp only [fieldKV, qstr, List.append_assoc, List.cons_append, List.nil_append,
    List.singleton_append]
  rw [parseStringBody_escape]
  simp only [skipWs_cons_not ':' _ (by decide)]
  rw [parseVal_qstr fuel v tail _
    (by rw [show skipWs (' ' :: ('"' :: (escapeString v.toList ++ '"' :: tail)))
          = skipWs ('"' :: (escapeString v.toList ++ '"' :: tail)) from rfl]
        rw [skipWs_cons_not '"' _ (by decide), qstr, List.cons_append, List.append_assoc]
        rfl)]
  simp only [h2, string_mk_toList]

theorem parseObjRest_field_last (fuel : Nat) (k v : String) (tail input r4 : List Char)
    (h : skipWs input = fieldKV k v ++ tail) (h2 : skipWs tail = '\x7d' :: r4) :
    parseObjRest (fuel + 2) input = some ([(k, Json.str v)], r4) := by
  rw [parseObjRest, h]
  simp only [fieldKV, qstr, List.append_assoc, List.cons_append, List.nil_append,
    List.singleton_append]
  rw [parseStringBody_escape]
  simp only [skipWs_cons_not ':' _ (by decide)]
  rw [parseVal_qstr fuel v tail _
    (by rw [show skipWs (' ' :: ('"' :: (escapeString v.toList ++ '"' :: tail)))
          = skipWs ('"' :: (escapeString v.toList ++ '"' :: tail)) from rfl]
        rw [skipWs_cons_not '"' _ (by decide), qstr, List.cons_append, List.append_assoc]
        rfl)]
  simp only [h2, string_mk_toList]

theorem skipWs_qstr_append (s : String) (tail : List Char) :
    skipWs (qstr s ++ tail) = qstr s ++ tail := by
  rw [qstr, List.cons_append, skipWs_cons_not _ _ (by decide)]

theorem skipWs_fieldKV (k v : String) (tail : List Char) :
    skipWs (fieldKV k v ++ tail) = fieldKV k v ++ tail := by
  rw [fieldKV, List.append_assoc, skipWs_qstr_append]

theorem fieldKV_expand (k v : String) (tail : List Char) :
    fieldKV k v ++ tail
      = '"' :: (escapeString k.toList ++ '"' :: ':' :: ' ' :: (qstr v ++ tail)) := by
  rw [fieldKV, qstr]
  simp [List.append_assoc]

theorem headIs_fieldKV (c : Char) (k v : String) (tail : List Char) :
    headIs c (fieldKV k v ++ tail) = ('"' == c) := by
  rw [fieldKV_expand, headIs]

theorem if_headIs_fieldKV {α : Type} (c : Char) (k v : String) (tail : List Char) (a b : α)
    (h : ('"' == c) = false) :
    (if headIs c (fieldKV k v ++ tail) then a else b) = b := by
  rw [headIs_fieldKV, h]
  simp

theorem parseObjRest_fields_cons (fuel : Nat) (k v : String) (tail : List Char) :
    parseObjRest (fuel + 2) (fieldKV k v ++ ',' :: tail)
      = (parseObjRest (fuel + 1) tail).map (fun p => ((k, Json.str v) :: p.1, p.2)) :=
  parseObjRest_field_cons fuel k v (',' :: tail) (fieldKV k v ++ ',' :: tail) tail
    (skipWs_fieldKV ..) (skipWs_cons_not ',' _ (by decide))

theorem parseObjRest_fields_last (fuel : Nat) (k v : String) (n : Nat) (rest : List Char) :
    parseObjRest (fuel + 2) (fieldKV k v ++ '\n' :: (sp n ++ '\x7d' :: rest))
      = some ([(k, Json.str v)], rest) :=
  parseObjRest_field_last fuel k v ('\n' :: (sp n ++ '\x7d' :: rest)) _ rest
    (skipWs_fieldKV ..) (by rw [skipWs_nl_sp, skipWs_cons_not '\x7d' _ (by decide)])

theorem parseObjRest_drop_ws (fuel : Nat) (n : Nat) (input : List Char) :
    parseObjRest (fuel + 1) ('\n' :: (sp n ++ input)) = parseObjRest (fuel + 1) input := by
  rw [parseObjRest, parseObjRest, skipWs_nl_sp]

theorem buildDict_record (v1 v2 v3 v4 v5 v6 : String) :
    buildDict [("last_name", Json.str v1), ("first_name", Json.str v2),
      ("middle_name", Json.str v3), ("organization", Json.str v4),
      ("work_phone", Json.str v5), ("personal_phone", Json.str v6)]
      = [("last_name", Json.str v1), ("first_name", Json.str v2),
         ("middle_name", Json.str v3), ("organization", Json.str v4),
         ("work_phone", Json.str v5), ("personal_phone", Json.str v6)] := rfl

theorem parseVal_record (fuel : Nat) (r : Record) (rest input : List Char)
    (h : skipWs input = dumpRecordInd r ++ rest) :
    parseVal (fuel + 8) input = some (Record.toJson r, rest) := by
  rw [parseVal, h, dumpRecordInd]
  simp only [List.append_assoc, List.cons_append, List.nil_append, List.singleton_append]
  simp only [if_neg (show ¬ '\x7b' = '"' by decide), eq_self_iff_true, if_true]
  rw [skipWs_nl_sp, skipWs_fieldKV]
  rw [if_headIs_fieldKV '\x7d' _ _ _ _ _ (by decide)]
  rw [show fuel + 7 = fuel + 5 + 2 from rfl]
  rw [parseObjRest_fields_cons]
  rw [parseObjRest_drop_ws]
  rw [show fuel + 5 + 1 = fuel + 4 + 2 from rfl]
  rw [parseObjRest_fields_cons]
  rw [parseObjRest_drop_ws]
  rw [show fuel + 4 + 1 = fuel + 3 + 2 from rfl]
  rw [parseObjRest_fields_cons]
  rw [parseObjRest_drop_ws]
  rw [show fuel + 3 + 1 = fuel + 2 + 2 from rfl]
  rw [parseObjRest_fields_cons]
  rw [parseObjRest_drop_ws]
  rw [show fuel + 2 + 1 = fuel + 1 + 2 from rfl]
  rw [parseObjRest_fields_cons]
  rw [parseObjRest_drop_ws]
  rw [show fuel + 1 + 1 = fuel + 2 from rfl]
  rw [parseObjRest_fields_last]
  simp only [Option.map_some']
  rw [buildDict_record]
  rfl

theorem skipWs_dump (r : Record) (tail : List Char) :
    skipWs (dumpRecordInd r ++ tail) = dumpRecordInd r ++ tail := by
  rw [dumpRecordInd]
  simp only [List.cons_append]
  rw [skipWs_cons_not _ _ (by decide)]

theorem headIs_dump (c : Char) (r : Record) (tail : List Char) :
    headIs c (dumpRecordInd r ++ tail) = ('\x7b' == c) := by
  rw [dumpRecordInd]
  simp only [List.cons_append]
  rw [headIs]

theorem if_headIs_eq {α : Type} (c x : Char) (l : List Char) (a b : α) (h : (x == c) = true) :
    (if headIs c (x :: l) then a else b) = a := by
  simp [headIs, h]

theorem parseArrRest_records (xs : List Record) (x : Record) (fuel : Nat)
    (rest input : List Char)
    (h : skipWs input = dumpRecordInd x ++ (dumpRecsTail xs ++ rest)) :
    parseArrRest (fuel + 9 * xs.length + 9) input
      = some ((x :: xs).map Record.toJson, rest) := by
  induction xs generalizing x fuel input rest with
  | nil =>
    rw [dumpRecsTail] at h
    simp only [List.cons_append, List.singleton_append, List.nil_append, List.length_nil,
      Nat.mul_zero, Nat.add_zero] at h ⊢
    rw [parseArrRest]
    rw [parseVal_record fuel x _ _ h]
    simp only [show skipWs ('\n' :: ']' :: rest) = ']' :: rest from by
      rw [show skipWs ('\n' :: ']' :: rest) = skipWs (']' :: rest) from rfl,
        skipWs_cons_not ']' _ (by decide)]]
    rfl
  | cons y ys ih =>
    rw [dumpRecsTail] at h
    simp only [List.cons_append, List.append_assoc] at h
    simp only [List.length_cons]
    rw [show fuel + 9 * (ys.length + 1) + 9 = (fuel + 9 * ys.length + 17) + 1 by omega]
    rw [parseArrRest]
    rw [show fuel + 9 * ys.length + 17 = (fuel + 9 * ys.length + 9) + 8 by omega]
    rw [parseVal_record _ x _ _ h]
    simp only [show skipWs (',' :: '\n' :: (sp 4 ++ (dumpRecordInd y ++ (dumpRecsTail ys ++ rest))))
        = ',' :: '\n' :: (sp 4 ++ (dumpRecordInd y ++ (dumpRecsTail ys ++ rest))) from
      skipWs_cons_not ',' _ (by decide)]
    rw [show fuel + 9 * ys.length + 9 + 8 = (fuel + 8) + 9 * ys.length + 9 by omega]
    rw [ih y (fuel + 8) rest _ (by rw [skipWs_nl_sp, skipWs_dump])]
    rfl

theorem parseVal_saveChars (rs : List Record) (fuel : Nat) (rest input : List Char)
    (h : skipWs input = saveChars rs ++ rest) :
    parseVal (fuel + 9 * rs.length + 10) input = some (encodeRecords rs, rest) := by
  cases rs with
  | nil =>
    rw [saveChars] at h
    simp only [List.cons_append, List.singleton_append, List.nil_append, List.length_nil,
      Nat.mul_zero, Nat.add_zero] at h ⊢
    rw [parseVal, h]
    simp only [if_neg (show ¬ '[' = '"' by decide), if_neg (show ¬ '[' = '\x7b' by decide),
      eq_self_iff_true, if_true]
    rw [show skipWs (']' :: rest) = ']' :: rest from skipWs_cons_not ']' _ (by decide)]
    rw [if_headIs_eq ']' ']' rest _ _ (by decide)]
    rfl
  | cons x xs =>
    rw [saveChars] at h
    simp only [List.cons_append, List.append_assoc, List.length_cons] at h ⊢
    rw [show fuel + 9 * (xs.length + 1) + 10 = (fuel + 9 * xs.length + 18) + 1 by omega]
    rw [parseVal, h]
    simp only [if_neg (show ¬ '[' = '"' by decide), if_neg (show ¬ '[' = '\x7b' by decide),
      eq_self_iff_true, if_true]
    rw [skipWs_nl_sp, skipWs_dump]
    rw [headIs_dump]
    rw [if_neg (show ¬ (('\x7b' == ']') = true) by decide)]
    rw [show fuel + 9 * xs.length + 18 = (fuel + 9) + 9 * xs.length + 9 by omega]
    rw [parseArrRest_records xs x (fuel + 9) rest _ (skipWs_dump ..)]
    rfl

/-! Fuel accounting: `pyJsonLoads` runs the parser with fuel
`2 * length + 2`, which the following length bounds show is enough for the
text `save_records` produces. -/

theorem dumpRecordInd_length_ge (r : Record) : 9 ≤ (dumpRecordInd r).length := by
  rw [dumpRecordInd]
  simp [fieldKV, qstr, sp]

theorem dumpRecsTail_length_ge (xs : List Record) :
    9 * xs.length + 2 ≤ (dumpRecsTail xs).length := by
  induction xs with
  | nil => rw [dumpRecsTail]; simp
  | cons y ys ih =>
    rw [dumpRecsTail]
    have hy := dumpRecordInd_length_ge y
    simp only [List.length_cons, List.length_append, sp, List.length_replicate]
    omega

theorem saveChars_length_ge (x : Record) (xs : List Record) :
    9 * (x :: xs).length + 4 ≤ (saveChars (x :: xs)).length := by
  rw [saveChars]
  have hx := dumpRecordInd_length_ge x
  have ht := dumpRecsTail_length_ge xs
  simp only [List.length_cons, List.length_append, sp, List.length_replicate]
  omega

theorem skipWs_saveChars (rs : List Record) : skipWs (saveChars rs) = saveChars rs := by
  cases rs with
  | nil => rfl
  | cons x xs =>
    rw [saveChars]
    exact skipWs_cons_not '[' _ (by decide)

/-- Core round trip: the text `save_records` writes parses back, by
`json.loads`, to exactly the JSON value encoding the saved records. -/
theorem pyJsonLoads_save_records (rs : List Record) :
    pyJsonLoads (save_records rs) = some (encodeRecords rs) := by
  cases rs with
  | nil => rfl
  | cons x xs =>
    rw [pyJsonLoads]
    simp only [save_records]
    rw [show (String.mk (saveChars (x :: xs))).toList = saveChars (x :: xs) from rfl]
    have hlen := saveChars_length_ge x xs
    have hfuel : 2 * (saveChars (x :: xs)).length + 2
        = (2 * (saveChars (x :: xs)).length + 2 - (9 * (x :: xs).length + 10))
          + 9 * (x :: xs).length + 10 := by
      simp only [List.length_cons] at hlen ⊢
      omega
    rw [hfuel]
    rw [parseVal_saveChars (x :: xs) _ [] _ (by rw [List.append_nil, skipWs_saveChars])]
    simp [skipWs_nil]

/-- `load_records` after `save_records`: write-through round trip. -/
theorem load_save_records (rs : List Record) :
    load_records (some (save_records rs)) = encodeRecords rs := by
  rw [load_records, pyJsonLoads_save_records]

theorem Record.toJson_inj {a b : Record} (h : Record.toJson a = Record.toJson b) : a = b := by
  cases a
  cases b
  simp only [Record.toJson, Json.obj.injEq, List.cons.injEq, Prod.mk.injEq, Json.str.injEq,
    true_and, and_true] at h
  simp only [Record.mk.injEq]
  tauto

theorem encodeRecords_inj : ∀ C D : List Record, encodeRecords C = encodeRecords D → C = D := by
  intro C
  induction C with
  | nil =>
    intro D h
    cases D with
    | nil => rfl
    | cons d ds => simp [encodeRecords] at h
  | cons c cs ih =>
    intro D h
    cases D with
    | nil => simp [encodeRecords] at h
    | cons d ds =>
      simp only [encodeRecords, List.map_cons, Json.arr.injEq, List.cons.injEq] at h
      obtain ⟨h1, h2⟩ := h
      rw [Record.toJson_inj h1, ih ds (by simp [encodeRecords, h2])]

/-- C1: saving any collection (arbitrary string fields, including non-ASCII
and empty strings) and loading the written file back yields exactly the
JSON encoding of that collection — and the encoding determines the
collection field-for-field, so the loaded value agrees with the saved
collection on every field. -/
theorem C1_save_load_round_trip (C : List Record) :
    load_records (some (save_records C)) = encodeRecords C
    ∧ ∀ D : List Record, encodeRecords D = encodeRecords C → D = C :=
  ⟨load_save_records C, fun D h => encodeRecords_inj D C h⟩

/-- C1 witness: a concrete one-record collection round-trips. -/
theorem C1_save_load_round_trip_witness :
    load_records (some (save_records [recA])) = encodeRecords [recA]
    ∧ ([recA] : List Record) = [recA] :=
  ⟨(C1_save_load_round_trip [recA]).1, (C1_save_load_round_trip [recA]).2 [recA] rfl⟩

/-- C3: write-through — after `add_record` returns, and after any
successful `edit_record` returns, the file holds exactly the serialization
of the current in-memory collection, and loading the file yields that
collection's encoding; the in-memory collection reflects the mutation. -/
theorem C3_write_through :
    (∀ (st : PhonebookState) (r : Record),
      (add_record st r).1.file = some (save_records (add_record st r).1.records)
      ∧ load_records (add_record st r).1.file = encodeRecords (add_record st r).1.records
      ∧ (add_record st r).1.records = st.records ++ [r])
    ∧ (∀ (st : PhonebookState) (i : Int) (r : Record) (st' : PhonebookState),
      edit_record st i r = some st' →
      st'.file = some (save_records st'.records)
      ∧ load_records st'.file = encodeRecords st'.records
      ∧ (0 ≤ i → i < st.records.length → st'.records = st.records.set i.toNat r)) := by
  constructor
  · intro st r
    exact ⟨rfl, load_save_records _, rfl⟩
  · intro st i r st' h
    rw [edit_record] at h
    cases hp : pyListSet st.records i r with
    | none => rw [hp] at h; exact Option.noConfusion h
    | some rs =>
      rw [hp] at h
      injection h with h
      subst h
      refine ⟨rfl, load_save_records _, ?_⟩
      intro h0 h1
      rw [pyListSet_nonneg st.records i r h0 h1] at hp
      injection hp with hp
      rw [← hp]

/-- C3 witness: adding to an empty phonebook, then editing index 0. -/
theorem C3_write_through_witness :
    load_records (add_record ⟨[], none⟩ recA).1.file
      = encodeRecords (add_record ⟨[], none⟩ recA).1.records
    ∧ ∀ st', edit_record ⟨[recA], none⟩ 0 recB = some st' →
        load_records st'.file = encodeRecords st'.records := by
  exact ⟨(C3_write_through.1 ⟨[], none⟩ recA).2.1,
    fun st' h => (C3_write_through.2 ⟨[recA], none⟩ 0 recB st' h).2.1⟩

/-- C8: `load_records` returns the empty list value when the file is
missing; when the content fails to parse it returns the empty list value
(no error is raised — the model is a total function); when the content
parses it returns the parsed value, and in particular a file written by
`save_records` loads back to the exact encoding of the saved collection. -/
theorem C8_load_tolerance :
    load_records none = Json.arr []
    ∧ (∀ s : String, pyJsonLoads s = none → load_records (some s) = Json.arr [])
    ∧ (∀ (s : String) (j : Json), pyJsonLoads s = some j → load_records (some s) = j)
    ∧ (∀ C : List Record, load_records (some (save_records C)) = encodeRecords C) := by
  refine ⟨rfl, ?_, ?_, load_save_records⟩
  · intro s hs
    rw [load_records, hs]
  · intro s j hs
    rw [load_records, hs]

/-- C8 witness: garbage content loads as the empty collection. -/
theorem C8_load_tolerance_witness :
    pyJsonLoads "not json" = none ∧ load_records (some "not json") = Json.arr [] :=
  ⟨rfl, C8_load_tolerance.2.1 "not json" rfl⟩

/-- C10: whatever JSON value the file content parses to is returned as-is
by `load_records`, whatever its shape — e.g. the non-array `5` — so a
successful load need not be a collection encoding; only a parse failure is
mapped to the empty collection. -/
theorem C10_load_returns_any_json :
    (∀ (s : String) (j : Json), pyJsonLoads s = some j → load_records (some s) = j)
    ∧ pyJsonLoads "5" = some (Json.num 5)
    ∧ (∀ C : List Record, Json.num 5 ≠ encodeRecords C)
    ∧ (∀ s : String, pyJsonLoads s = none → load_records (some s) = Json.arr []) := by
  refine ⟨?_, rfl, ?_, ?_⟩
  · intro s j hs
    rw [load_records, hs]
  · intro C h
    cases C <;> simp [encodeRecords] at h
  · intro s hs
    rw [load_records, hs]

/-- C10 witness: the file content `5` loads as the JSON number 5, which is
no collection's encoding. -/
theorem C10_load_returns_any_json_witness :
    load_records (some "5") = Json.num 5
    ∧ Json.num 5 ≠ encodeRecords []
    ∧ load_records (some "garbage") = Json.arr [] :=
  ⟨C10_load_returns_any_json.1 "5" (Json.num 5) rfl,
   C10_load_returns_any_json.2.2.1 [],
   C10_load_returns_any_json.2.2.2 "garbage" rfl⟩
